import Mathlib

/-
  Verification development for the axion-photon conversion library
  (TRestAxionPhotonConversion, TRestAxionFieldPropagationProcess).

  The C++ sources are shallowly embedded over the real numbers: each double
  becomes a real, each member function a Lean function, the optional buffer
  gas collaborator an Option-valued parameter, and each while loop either a
  least-iteration-count construction (for loops whose body advances a single
  scalar coordinate) or a fuel-indexed recursion (for the outer bisection
  loop, whose round count is bounded by the halving of the step).
-/

namespace Axionlib

/-- Modelled from the spec: physical constant from the external REST_Physics
collaborator (speed of light in m per s), used by the natural-unit conversion
of the BL factor.  Only its positivity matters for the claims. -/
def lightSpeed : ℝ := 2.99792458e8

/-- Modelled from the spec: physical constant from the external REST_Physics
collaborator (elementary electric charge in natural units). -/
def naturalElectron : ℝ := 0.302822

/-- Modelled from the spec: physical constant from the external REST_Physics
collaborator, the number of inverse electronvolts in one meter, used to
express the coherence length in natural units. -/
def PhMeterIneV : ℝ := 5067731.0

/-- Modelled from the spec: the external medium collaborator interface.  The
photon effective mass and the absorption coefficient are black-box functions
of the particle energy. -/
structure BufferGas where
  GetPhotonMass : ℝ → ℝ
  GetPhotonAbsorptionLength : ℝ → ℝ

/-- Photon effective mass taken from the optional medium collaborator,
zero when no buffer gas has been assigned (vacuum), as in the source of
GammaTransmissionProbability. -/
def photonMassOf (gas : Option BufferGas) (Ea : ℝ) : ℝ :=
  match gas with
  | none => 0
  | some g => g.GetPhotonMass Ea

/-- Absorption coefficient taken from the optional medium collaborator,
zero when no buffer gas has been assigned, as in the source of
GammaTransmissionProbability. -/
def gammaOf (gas : Option BufferGas) (Ea : ℝ) : ℝ :=
  match gas with
  | none => 0
  | some g => g.GetPhotonAbsorptionLength Ea

/-- TRestAxionPhotonConversion::BLHalfSquared.  Lcoh in mm, Bmag in T; the
result is the squared half BL factor in natural units for the reference
axion-photon coupling. -/
noncomputable def BLHalfSquared (Bmag Lcoh : ℝ) : ℝ :=
  let lengthInMeters := Lcoh / 1000
  let tm := lightSpeed / naturalElectron * 1.0e-9
  let sol := lengthInMeters * Bmag * tm / 2
  sol * sol * 1.0e-20

open Classical in
/-- TRestAxionPhotonConversion::GammaTransmissionProbability, scalar overload
(Mode A).  Ea in keV, ma in eV, Lcoh in mm, Bmag in T.  The source computes
with 100-digit mpreal arithmetic; the embedding uses exact reals. -/
noncomputable def GammaTransmissionProbability (gas : Option BufferGas)
    (Ea Bmag ma Lcoh : ℝ) : ℝ :=
  let cohLength := Lcoh / 1000
  let photonMass := photonMassOf gas Ea
  if ma = 0 ∧ photonMass = 0 then BLHalfSquared Bmag Lcoh else
  let q := (ma * ma - photonMass * photonMass) / 2 / Ea / 1000
  let l := cohLength * PhMeterIneV
  let phi := q * l
  let Gamma := gammaOf gas Ea
  let GammaL := Gamma * cohLength * 100
  let MFactor := 1 / (phi * phi + GammaL * GammaL / 4)
  MFactor * BLHalfSquared Bmag Lcoh *
    (1 + Real.exp (-GammaL) - 2 * Real.exp (-GammaL / 2) * Real.cos phi)

/-- TRestAxionPhotonConversion::GammaTransmissionProbability, profile overload
(Mode B).  The source builds two histograms with bins spanning the coherence
length, fills sample i of the attenuated and phase-rotated transverse field at
the abscissa cohLength times i over N, and integrates over the full axis range
including the overflow bin that receives the last sample; that integral equals
the plain sum of the filled weights, and the subsequent normalisation factor
xmax minus xmin over bmax minus bmin equals cohLength over N plus 1, because
FindBin at the upper axis edge lands on the overflow bin.  The squared modulus
of the resulting complex integral is scaled by the same natural-unit factor as
Mode A. -/
noncomputable def GammaTransmissionProbabilityVec (gas : Option BufferGas)
    (Ea : ℝ) (B : List ℝ) (ma Lcoh : ℝ) : ℝ :=
  let cohLength := Lcoh / 1000
  let photonMass := photonMassOf gas Ea
  let q := (ma * ma - photonMass * photonMass) / 2 / Ea / 1000
  let Gamma := gammaOf gas Ea
  let GammaL := Gamma * cohLength * 100
  let tm := lightSpeed / naturalElectron * 1.0e-9
  let Factor := tm / 2 * (tm / 2) * 1.0e-20
  let N : ℕ := B.length - 1
  let Bx : ℕ → ℝ := fun i =>
    B.getD i 0 * Real.exp (GammaL / 2 * ((i : ℝ) / (N : ℝ) - 1)) *
      Real.cos (-cohLength * PhMeterIneV * ((i : ℝ) / (N : ℝ)) * q)
  let By : ℕ → ℝ := fun i =>
    B.getD i 0 * Real.exp (GammaL / 2 * ((i : ℝ) / (N : ℝ) - 1)) *
      Real.sin (-cohLength * PhMeterIneV * ((i : ℝ) / (N : ℝ)) * q)
  let integralx := (∑ i ∈ Finset.range (N + 1), Bx i) * cohLength / ((N : ℝ) + 1)
  let integraly := (∑ i ∈ Finset.range (N + 1), By i) * cohLength / ((N : ℝ) + 1)
  Factor * (integralx * integralx + integraly * integraly)

/-- Three-component real vector, standing in for TVector3. -/
abbrev V3 : Type := ℝ × ℝ × ℝ

/-- The zero vector, the value the field sampler returns where there is no
field, and the value the tracer stores as its in-band sentinel. -/
def zeroV : V3 := (0, 0, 0)

/-- Dot product of two vectors. -/
def dot3 (a b : V3) : ℝ := a.1 * b.1 + a.2.1 * b.2.1 + a.2.2 * b.2.2

/-- Squared magnitude of a vector. -/
def mag2 (a : V3) : ℝ := dot3 a a

open Classical in
/-- TVector3::Perp2 relative to a direction: squared magnitude minus the
squared projection onto the direction when the direction is nonzero, clamped
below at zero. -/
noncomputable def perp2 (a p : V3) : ℝ :=
  let tot := mag2 p
  let per := if 0 < tot then mag2 a - dot3 a p * dot3 a p / tot else mag2 a
  max per 0

/-- TVector3::Perp relative to a direction: the transverse component
magnitude. -/
noncomputable def perpMag (a p : V3) : ℝ := Real.sqrt (perp2 a p)

/-- Add c times the vector d to the vector p, componentwise. -/
def axpy (c : ℝ) (d p : V3) : V3 := (p.1 + c * d.1, p.2.1 + c * d.2.1, p.2.2 + c * d.2.2)

/-- The sequence of sampling positions walked by GetFieldVector: the source
updates the running point itself by differential times i over N minus 1 at
step i, starting from the entry point, so the offsets accumulate from one
step to the next. -/
noncomputable def samplePos (inp differential : V3) (N : ℕ) : ℕ → V3
  | 0 => inp
  | i + 1 => axpy (((i + 1 : ℕ) : ℝ) / ((N : ℝ) - 1)) differential (samplePos inp differential N i)

/-- TRestAxionFieldPropagationProcess::GetFieldVector: N transverse-field
magnitudes along the walked positions, with the default N of 10000 when the
caller passes zero. -/
noncomputable def GetFieldVector (field : V3 → V3) (direction inp out : V3) (N0 : ℕ) : List ℝ :=
  let N := if N0 = 0 then 10000 else N0
  let differential : V3 := (out.1 - inp.1, out.2.1 - inp.2.1, out.2.2 - inp.2.2)
  List.ofFn fun i : Fin N => |perpMag (field (samplePos inp differential N i)) direction|

/-- Advance the x coordinate of a point by t, keeping y and z: the stepping
of the FindOneVolume branch for a ray with vanishing y and z direction
components. -/
def advX (p : V3) (t : ℝ) : V3 := (p.1 + t, p.2.1, p.2.2)

open Classical in
/-- The inner coarse scan of FindOneVolume along x: starting from pos,
advance x by d while the field vanishes and x stays inside the domain bound;
the result is the state at the first step where the guard fails, and it is
absent when the guard never fails, in which case the source loop never
exits. -/
noncomputable def innerZeroScanX (field : V3 → V3) (pos : V3) (d : ℝ) : Option V3 :=
  if h : ∃ n : ℕ, ¬ (field (advX pos ((n : ℝ) * d)) = zeroV ∧
      -40000 ≤ (advX pos ((n : ℝ) * d)).1 ∧ (advX pos ((n : ℝ) * d)).1 ≤ 40000)
  then some (advX pos ((Nat.find h : ℝ) * d))
  else none

open Classical in
/-- The exit scan of FindOneVolume along x: advance x by d while the field is
nonzero.  The source checks no domain bound here; the result is absent
exactly when the field never returns to zero along the scan, in which case
the source loop never exits. -/
noncomputable def exitScanX (field : V3 → V3) (pos : V3) (d : ℝ) : Option V3 :=
  if h : ∃ n : ℕ, field (advX pos ((n : ℝ) * d)) = zeroV
  then some (advX pos ((Nat.find h : ℝ) * d))
  else none

open Classical in
/-- The outer bisection loop of the x branch of FindOneVolume: while dr
exceeds minStep, run the inner zero-field scan; if it left the domain, return
the sentinel pair flag, otherwise step back by dr and halve it.  The fuel
only bounds the number of halving rounds, which the source bounds by the
halving itself; a vanished inner scan propagates as an absent result. -/
noncomputable def outerX (field : V3 → V3) (dir0 minStep : ℝ) :
    ℕ → V3 → ℝ → Option (V3 × ℝ × Bool)
  | 0, _, _ => none
  | fuel + 1, pos, dr =>
    if minStep < dr then
      (innerZeroScanX field pos (dir0 * dr)).bind fun p =>
        if p.1 < -40000 ∨ 40000 < p.1 then some (p, dr, true)
        else outerX field dir0 minStep fuel (advX p (-(dir0 * dr))) (dr / 2)
    else some (pos, dr, false)

open Classical in
/-- The x branch of TRestAxionFieldPropagationProcess::FindOneVolume, for a
ray whose y and z direction components vanish: shift the start by half a
minimum step, run the bisection; on the out-of-domain flag return the
boundary pair whose exit point is the zero-vector sentinel, otherwise step
forward by twice dr from the resolved entry and run the exit scan with no
domain bound.  An absent result models a source loop that never exits. -/
noncomputable def FindOneVolumeX (field : V3 → V3) (pos dir : V3) (minStep : ℝ)
    (fuel : ℕ) : Option (List V3) :=
  (outerX field dir.1 minStep fuel (advX pos (dir.1 * minStep / 2)) 5).bind fun r =>
    if r.2.2 = true then some [r.1, zeroV]
    else (exitScanX field (advX r.1 (dir.1 * r.2.1 * 2)) (dir.1 * r.2.1)).bind fun pOut =>
      some [advX r.1 (dir.1 * r.2.1 * 2), pOut]

open Classical in
/-- Per-segment probability assignment of ProcessEvent: the source assigns
the x-aligned case first, but the following if with an else branch assigns in
both of its branches and therefore always overwrites that first value; the
value that survives only ever uses the z difference or the y difference as
the coherence length. -/
noncomputable def segmentProbability (gas : Option BufferGas) (Ea ma : ℝ)
    (field : V3 → V3) (direction : V3) (bIn bOut : V3) : ℝ :=
  let B := GetFieldVector field direction bIn bOut 0
  let prob1 := if bIn.2.1 = bOut.2.1 ∧ bIn.2.2 = bOut.2.2 then
      GammaTransmissionProbabilityVec gas Ea B ma |bIn.1 - bOut.1| else 0
  let prob2 := if bIn.1 = bOut.1 ∧ bIn.2.1 = bOut.2.1 then
      GammaTransmissionProbabilityVec gas Ea B ma |bIn.2.2 - bOut.2.2|
    else GammaTransmissionProbabilityVec gas Ea B ma |bIn.2.1 - bOut.2.1|
  prob2

/-- The combined probability ProcessEvent reports: the sum of the
per-segment probabilities over all traced segments. -/
noncomputable def processProbability (gas : Option BufferGas) (Ea ma : ℝ)
    (field : V3 → V3) (direction : V3) (boundaries : List (V3 × V3)) : ℝ :=
  ∑ i ∈ Finset.range boundaries.length,
    segmentProbability gas Ea ma field direction
      (boundaries.getD i (zeroV, zeroV)).1 (boundaries.getD i (zeroV, zeroV)).2

/-- The out-of-range read ProcessEvent performs to set the output event
position: it indexes the boundary list at NofVolumes, which is the size of
the list itself. -/
def processEventPositionRead (boundaries : List (V3 × V3)) : Option (V3 × V3) :=
  List.get? boundaries boundaries.length

/-- Modelled from the spec: the REST units conversion factor from the default
millimeter lengths to centimeters, applied to the length multiplying the
absorption coefficient. -/
def unitsCm : ℝ := 0.1

open Classical in
/-- The transmission observable of the newer ProcessEvent: one when no
buffer gas is set or the configured additional length is not positive;
otherwise the exponential attenuation computed by the source, whose exponent
multiplies the absorption coefficient by lCoh, the coherence length of the
traversed field region, converted to centimeters. -/
noncomputable def transmissionObservable (gas : Option BufferGas)
    (bufferGasAdditionalLength Ea lCoh : ℝ) : ℝ :=
  match gas with
  | none => 1
  | some g =>
    if 0 < bufferGasAdditionalLength then
      Real.exp (-(g.GetPhotonAbsorptionLength Ea * lCoh * unitsCm))
    else 1

/-- A concrete buffer gas with vanishing photon mass and unit absorption
coefficient, used for concrete evaluations. -/
def constGas : BufferGas := ⟨fun _ => 0, fun _ => 1⟩

/-- Reading a replicated list inside its length gives the replicated value. -/
theorem getD_replicate (n : ℕ) (b : ℝ) (i : ℕ) (h : i < n) :
    (List.replicate n b).getD i 0 = b := by
  simp [List.getD_eq_getElem?_getD, List.getElem?_replicate, h]

/-- Summing a replicated list over its index range gives length times value. -/
theorem sum_getD_replicate (n : ℕ) (b : ℝ) :
    (∑ i ∈ Finset.range n, ((List.replicate n b)[i]?).getD 0) = n * b := by
  have h : ∀ i ∈ Finset.range n, ((List.replicate n b)[i]?).getD 0 = b := by
    intro i hi
    rw [List.getElem?_replicate]
    simp [Finset.mem_range.mp hi]
  rw [Finset.sum_congr rfl h]
  simp [mul_comm]

/-- Value of the Mode B probability on a constant profile when the axion mass
is zero and no medium is assigned: the phase and the absorption vanish, every
summand reduces to the constant field value, and the crude integral collapses
to the field value times the coherence length. -/
theorem vec_replicate_zero_mass (Ea b Lcoh : ℝ) (n : ℕ) (hn : 1 ≤ n) :
    GammaTransmissionProbabilityVec none Ea (List.replicate n b) 0 Lcoh =
      lightSpeed / naturalElectron * 1.0e-9 / 2 *
        (lightSpeed / naturalElectron * 1.0e-9 / 2) * 1.0e-20 *
        (b * (Lcoh / 1000) * (b * (Lcoh / 1000))) := by
  unfold GammaTransmissionProbabilityVec
  simp only [photonMassOf, gammaOf, List.length_replicate]
  rw [Nat.sub_add_cancel hn]
  norm_num [Real.exp_zero, Real.cos_zero, Real.sin_zero]
  left
  rw [sum_getD_replicate n b]
  have hcast : ((n - 1 : ℕ) : ℝ) + 1 = (n : ℝ) := by
    rw [Nat.cast_sub hn, Nat.cast_one]
    ring
  rw [hcast]
  have hne : (n : ℝ) ≠ 0 := Nat.cast_ne_zero.mpr (by omega)
  field_simp
  ring

/-- Claim C1 (amended): for a spatially constant profile of N at least 2
samples all equal to B, Mode B equals Mode A exactly, provided the oscillation
phase and the absorption vanish (zero axion mass, no medium); at nonzero phase
the two modes differ at small sample counts by far more than the claimed
tolerance. -/
theorem modeB_reduces_to_modeA_uniform_zero_phase (Ea Bv Lcoh : ℝ) (n : ℕ)
    (hB : 0 ≤ Bv) (hL : 0 < Lcoh) (hE : 0 < Ea) (hn : 2 ≤ n) :
    GammaTransmissionProbabilityVec none Ea (List.replicate n Bv) 0 Lcoh =
      GammaTransmissionProbability none Ea Bv 0 Lcoh := by
  rw [vec_replicate_zero_mass Ea Bv Lcoh n (by omega)]
  unfold GammaTransmissionProbability BLHalfSquared
  simp [photonMassOf]
  ring

/-- Witness for the amended claim C1 at a concrete input: two samples of a
unit field over 1000 mm at unit energy. -/
theorem modeB_reduces_to_modeA_uniform_zero_phase_witness :
    (0 : ℝ) ≤ 1 ∧ (0 : ℝ) < 1000 ∧ (0 : ℝ) < 1 ∧ 2 ≤ 2 ∧
    GammaTransmissionProbabilityVec none 1 (List.replicate 2 1) 0 1000 =
      GammaTransmissionProbability none 1 1 0 1000 :=
  ⟨by norm_num, by norm_num, by norm_num, le_refl 2,
    modeB_reduces_to_modeA_uniform_zero_phase 1 1 1000 2 (by norm_num) (by norm_num)
      (by norm_num) (le_refl 2)⟩

/-- Claim C1 is false as stated: at axion energy 1 keV, a constant unit field,
coherence length 1000 mm and the axion mass that makes the oscillation phase
equal to 2, the two-sample Mode B value differs from the Mode A value by a
relative deviation of order one, far beyond the claimed 1e-6 tolerance. -/
theorem modeB_modeA_tolerance_counterexample :
    ¬ (|GammaTransmissionProbabilityVec none 1 [1, 1] (Real.sqrt (4000 / PhMeterIneV)) 1000 -
        GammaTransmissionProbability none 1 1 (Real.sqrt (4000 / PhMeterIneV)) 1000| ≤
      1.0e-6 * |GammaTransmissionProbability none 1 1 (Real.sqrt (4000 / PhMeterIneV)) 1000|) := by
  have hPh : (0 : ℝ) < 4000 / PhMeterIneV := by norm_num [PhMeterIneV]
  have hms : Real.sqrt (4000 / PhMeterIneV) * Real.sqrt (4000 / PhMeterIneV) =
      4000 / PhMeterIneV := Real.mul_self_sqrt (le_of_lt hPh)
  have hms0 : Real.sqrt (4000 / PhMeterIneV) ≠ 0 := by
    rw [Real.sqrt_ne_zero']
    exact hPh
  have hA : GammaTransmissionProbability none 1 1 (Real.sqrt (4000 / PhMeterIneV)) 1000 =
      BLHalfSquared 1 1000 * ((2 - 2 * Real.cos 2) / 4) := by
    unfold GammaTransmissionProbability
    simp only [photonMassOf, gammaOf]
    rw [if_neg (fun h => hms0 h.1)]
    rw [hms]
    norm_num [PhMeterIneV, Real.exp_zero]
    ring
  have hB : GammaTransmissionProbabilityVec none 1 [1, 1] (Real.sqrt (4000 / PhMeterIneV)) 1000 =
      BLHalfSquared 1 1000 * ((2 + 2 * Real.cos 2) / 4) := by
    unfold GammaTransmissionProbabilityVec BLHalfSquared
    simp only [photonMassOf, gammaOf]
    rw [hms]
    norm_num [Finset.sum_range_succ, PhMeterIneV, Real.exp_zero, Real.cos_neg,
      Real.sin_neg, Real.cos_zero, Real.sin_zero]
    left
    linear_combination (1 / 4 : ℝ) * Real.sin_sq_add_cos_sq 2
  have hc1 : Real.cos 2 ≤ -(1 / 9) := by
    have h2 : Real.cos 2 = 2 * Real.cos 1 ^ 2 - 1 := by
      have := Real.cos_two_mul 1
      norm_num at this
      exact this
    nlinarith [Real.cos_one_le, Real.cos_one_pos]
  have hc2 : (-1 : ℝ) ≤ Real.cos 2 := Real.neg_one_le_cos 2
  have hK : 0 < BLHalfSquared 1 1000 := by
    unfold BLHalfSquared
    norm_num [lightSpeed, naturalElectron]
  rw [not_le, hA, hB]
  have hdiff : BLHalfSquared 1 1000 * ((2 + 2 * Real.cos 2) / 4) -
      BLHalfSquared 1 1000 * ((2 - 2 * Real.cos 2) / 4) =
      BLHalfSquared 1 1000 * Real.cos 2 := by ring
  calc 1.0e-6 * |BLHalfSquared 1 1000 * ((2 - 2 * Real.cos 2) / 4)|
      = 1.0e-6 * (BLHalfSquared 1 1000 * ((2 - 2 * Real.cos 2) / 4)) := by
        rw [abs_of_nonneg (by nlinarith)]
    _ < -(BLHalfSquared 1 1000 * Real.cos 2) := by nlinarith
    _ ≤ |BLHalfSquared 1 1000 * ((2 + 2 * Real.cos 2) / 4) -
          BLHalfSquared 1 1000 * ((2 - 2 * Real.cos 2) / 4)| := by
        rw [hdiff]
        exact neg_le_abs _

/-- Claim C2: when the axion mass and the medium photon mass are not both
zero, the scalar Mode A probability equals the van Bibber expression
M times the squared half BL factor times the oscillation-absorption bracket,
with the momentum transfer q built from the squared mass difference over
twice the energy (converted keV to eV), the phase phi equal to q times the
coherence length in natural units, and GammaL the absorption coefficient
times the coherence length (converted m to cm); photon mass and absorption
are zero when no medium is assigned. -/
theorem gammaTransmission_van_bibber_formula (gas : Option BufferGas)
    (Ea Bmag ma Lcoh : ℝ) (hE : 0 < Ea)
    (h : ¬ (ma = 0 ∧ photonMassOf gas Ea = 0)) :
    GammaTransmissionProbability gas Ea Bmag ma Lcoh =
      1 / (((ma ^ 2 - photonMassOf gas Ea ^ 2) / (2 * (Ea * 1000)) *
            (Lcoh / 1000 * PhMeterIneV)) ^ 2 +
          (gammaOf gas Ea * (Lcoh / 1000) * 100 / 2) ^ 2) *
        BLHalfSquared Bmag Lcoh *
        (1 + Real.exp (-(gammaOf gas Ea * (Lcoh / 1000) * 100)) -
          2 * Real.exp (-(gammaOf gas Ea * (Lcoh / 1000) * 100) / 2) *
            Real.cos ((ma ^ 2 - photonMassOf gas Ea ^ 2) / (2 * (Ea * 1000)) *
              (Lcoh / 1000 * PhMeterIneV))) := by
  unfold GammaTransmissionProbability
  simp only [if_neg h]
  have harg : (ma * ma - photonMassOf gas Ea * photonMassOf gas Ea) / 2 / Ea / 1000 *
      (Lcoh / 1000 * PhMeterIneV) =
      (ma ^ 2 - photonMassOf gas Ea ^ 2) / (2 * (Ea * 1000)) *
        (Lcoh / 1000 * PhMeterIneV) := by
    ring
  rw [harg]
  ring

/-- Witness for claim C2 at a concrete input: no medium, unit axion mass,
energy, field and coherence length. -/
theorem gammaTransmission_van_bibber_formula_witness :
    (0 : ℝ) < 1 ∧ ¬ ((1 : ℝ) = 0 ∧ photonMassOf none 1 = 0) ∧
    GammaTransmissionProbability none 1 1 1 1 =
      1 / ((((1 : ℝ) ^ 2 - photonMassOf none 1 ^ 2) / (2 * (1 * 1000)) *
            (1 / 1000 * PhMeterIneV)) ^ 2 +
          (gammaOf none 1 * (1 / 1000) * 100 / 2) ^ 2) *
        BLHalfSquared 1 1 *
        (1 + Real.exp (-(gammaOf none 1 * (1 / 1000) * 100)) -
          2 * Real.exp (-(gammaOf none 1 * (1 / 1000) * 100) / 2) *
            Real.cos (((1 : ℝ) ^ 2 - photonMassOf none 1 ^ 2) / (2 * (1 * 1000)) *
              (1 / 1000 * PhMeterIneV))) :=
  ⟨by norm_num, by simp [photonMassOf],
    gammaTransmission_van_bibber_formula none 1 1 1 1 (by norm_num)
      (by simp [photonMassOf])⟩

/-- Claim C3: with zero axion mass and zero medium photon mass (and zero
absorption) the scalar Mode A probability short-circuits to the exact
natural-unit value of the squared half BL factor, before the M factor is
ever formed. -/
theorem gammaTransmission_vacuum_degeneracy (gas : Option BufferGas)
    (Ea Bmag Lcoh : ℝ) (hpm : photonMassOf gas Ea = 0)
    (habs : gammaOf gas Ea = 0) :
    GammaTransmissionProbability gas Ea Bmag 0 Lcoh =
      (Lcoh / 1000 * Bmag * (lightSpeed / naturalElectron * 1.0e-9) / 2) *
        (Lcoh / 1000 * Bmag * (lightSpeed / naturalElectron * 1.0e-9) / 2) *
          1.0e-20 ∧
    GammaTransmissionProbability gas Ea Bmag 0 Lcoh = BLHalfSquared Bmag Lcoh := by
  have h : GammaTransmissionProbability gas Ea Bmag 0 Lcoh = BLHalfSquared Bmag Lcoh := by
    unfold GammaTransmissionProbability
    simp [hpm]
  exact ⟨by rw [h]; rfl, h⟩

/-- Witness for claim C3 at a concrete input: no medium, unit field, unit
energy and a coherence length of 1000 mm. -/
theorem gammaTransmission_vacuum_degeneracy_witness :
    photonMassOf none 1 = 0 ∧ gammaOf none 1 = 0 ∧
    (GammaTransmissionProbability none 1 1 0 1000 =
      (1000 / 1000 * 1 * (lightSpeed / naturalElectron * 1.0e-9) / 2) *
        (1000 / 1000 * 1 * (lightSpeed / naturalElectron * 1.0e-9) / 2) *
          1.0e-20 ∧
     GammaTransmissionProbability none 1 1 0 1000 = BLHalfSquared 1 1000) :=
  ⟨rfl, rfl, gammaTransmission_vacuum_degeneracy none 1 1 1000 rfl rfl⟩

/-- Claim C7 is violated by the code: with a buffer gas of unit absorption
coefficient, a configured additional length of 1 mm and a traversed field
region of 2000 mm, the transmission observable equals the exponential of
minus 200, the attenuation over the in-field coherence length, and not the
exponential of minus one tenth that the configured additional length
prescribes. -/
theorem transmission_uses_coherence_length_bug :
    transmissionObservable (some constGas) 1 1 2000 = Real.exp (-(200 : ℝ)) ∧
    Real.exp (-(200 : ℝ)) ≠ Real.exp (-((1 : ℝ) * 1 * unitsCm)) := by
  constructor
  · norm_num [transmissionObservable, constGas, unitsCm]
  · rw [Ne, Real.exp_eq_exp]
    norm_num [unitsCm]

/-- Claim C10 is violated by the code: the read that sets the output event
position indexes the boundary list at its own length, which is out of bounds
for every segment count, including zero segments. -/
theorem processEvent_position_read_out_of_bounds :
    ∀ boundaries : List (V3 × V3), processEventPositionRead boundaries = none := by
  intro boundaries
  unfold processEventPositionRead
  exact List.get?_eq_none.mpr (le_refl _)

/-- Claim C9 is violated by the code: a zero ray direction enters the
x-aligned branch of FindOneVolume and advances the scan coordinate by zero at
every step, so with a field that vanishes at the start position the inner
scan guard never fails and the trace never returns, for any amount of fuel;
no explicit per-particle error is raised. -/
theorem findOneVolume_zero_direction_diverges :
    ∀ fuel : ℕ, FindOneVolumeX (fun _ => zeroV) zeroV zeroV (1 / 100) fuel = none := by
  intro fuel
  have hinner : ∀ pos : V3, pos.1 = 0 →
      innerZeroScanX (fun _ => zeroV) pos ((zeroV : V3).1 * 5) = none := by
    intro pos hpos
    unfold innerZeroScanX
    rw [dif_neg]
    push_neg
    intro n
    exact ⟨rfl, by norm_num [advX, zeroV, hpos], by norm_num [advX, zeroV, hpos]⟩
  cases fuel with
  | zero =>
    unfold FindOneVolumeX outerX
    rfl
  | succ k =>
    unfold FindOneVolumeX outerX
    rw [if_pos (by norm_num)]
    rw [hinner (advX zeroV ((zeroV : V3).1 * (1 / 100) / 2)) (by norm_num [advX, zeroV])]
    rfl

/-- The transverse magnitude of a z-directed field vector relative to the x
axis is the z component itself. -/
theorem perpMag_zAxis (x : ℝ) (hx : 0 ≤ x) :
    |perpMag ((0 : ℝ), (0 : ℝ), x) ((1 : ℝ), (0 : ℝ), (0 : ℝ))| = x := by
  unfold perpMag perp2 mag2 dot3
  norm_num
  rw [max_eq_left (by positivity), Real.sqrt_mul_self hx]
  exact abs_of_nonneg hx

/-- Claim C4 is violated by the code: for entry (0,0,0), exit (1,0,0) and
N equal to 3, the walked sample positions are 0, one half and three halves of
the segment, because the source accumulates the offsets; the claim prescribes
the third sample at the exit point itself, offset one.  The sampled profile of
the field whose z component equals the x coordinate records the out-of-segment
position three halves. -/
theorem getFieldVector_cumulative_sampling_bug :
    GetFieldVector (fun p => ((0 : ℝ), (0 : ℝ), p.1)) ((1 : ℝ), (0 : ℝ), (0 : ℝ))
        ((0 : ℝ), (0 : ℝ), (0 : ℝ)) ((1 : ℝ), (0 : ℝ), (0 : ℝ)) 3 = [0, 1 / 2, 3 / 2] ∧
    samplePos ((0 : ℝ), (0 : ℝ), (0 : ℝ)) ((1 : ℝ), (0 : ℝ), (0 : ℝ)) 3 2 ≠
      axpy ((2 : ℝ) / ((3 : ℝ) - 1)) ((1 : ℝ), (0 : ℝ), (0 : ℝ))
        ((0 : ℝ), (0 : ℝ), (0 : ℝ)) := by
  have h1 : samplePos ((0 : ℝ), (0 : ℝ), (0 : ℝ)) ((1 : ℝ), (0 : ℝ), (0 : ℝ)) 3 1 =
      ((1 / 2 : ℝ), (0 : ℝ), (0 : ℝ)) := by
    show axpy (((0 + 1 : ℕ) : ℝ) / (((3 : ℕ) : ℝ) - 1)) ((1 : ℝ), (0 : ℝ), (0 : ℝ))
        (samplePos ((0 : ℝ), (0 : ℝ), (0 : ℝ)) ((1 : ℝ), (0 : ℝ), (0 : ℝ)) 3 0) = _
    norm_num [samplePos, axpy]
  have h2 : samplePos ((0 : ℝ), (0 : ℝ), (0 : ℝ)) ((1 : ℝ), (0 : ℝ), (0 : ℝ)) 3 2 =
      ((3 / 2 : ℝ), (0 : ℝ), (0 : ℝ)) := by
    show axpy (((1 + 1 : ℕ) : ℝ) / (((3 : ℕ) : ℝ) - 1)) ((1 : ℝ), (0 : ℝ), (0 : ℝ))
        (samplePos ((0 : ℝ), (0 : ℝ), (0 : ℝ)) ((1 : ℝ), (0 : ℝ), (0 : ℝ)) 3 1) = _
    rw [h1]
    norm_num [axpy]
  constructor
  · unfold GetFieldVector
    norm_num
    norm_num at h1 h2
    refine ⟨?_, ?_, ?_⟩
    · show perpMag ((0 : ℝ), (0 : ℝ), (0 : ℝ)) ((1 : ℝ), (0 : ℝ), (0 : ℝ)) = 0
      unfold perpMag perp2 mag2 dot3
      norm_num
    · rw [h1]
      exact perpMag_zAxis (1 / 2) (by norm_num)
    · rw [h2]
      exact perpMag_zAxis (3 / 2) (by norm_num)
  · rw [h2]
    intro h
    rw [Prod.ext_iff] at h
    norm_num [axpy] at h

/-- When the field vanishes nowhere, the inner zero-field scan exits on its
very first test and returns its start position unchanged. -/
theorem innerZeroScanX_of_ne (field : V3 → V3) (hfield : ∀ p, field p ≠ zeroV)
    (pos : V3) (d : ℝ) : innerZeroScanX field pos d = some pos := by
  unfold innerZeroScanX
  have h0 : ¬ (field (advX pos (((0 : ℕ) : ℝ) * d)) = zeroV ∧
      -40000 ≤ (advX pos (((0 : ℕ) : ℝ) * d)).1 ∧
      (advX pos (((0 : ℕ) : ℝ) * d)).1 ≤ 40000) := fun hc => hfield _ hc.1
  rw [dif_pos ⟨0, h0⟩]
  congr 1
  have hfind : Nat.find (⟨0, h0⟩ : ∃ n : ℕ, ¬ (field (advX pos ((n : ℝ) * d)) = zeroV ∧
      -40000 ≤ (advX pos ((n : ℝ) * d)).1 ∧ (advX pos ((n : ℝ) * d)).1 ≤ 40000)) = 0 :=
    (Nat.find_eq_zero _).mpr h0
  rw [hfind]
  simp [advX]

/-- When the field vanishes nowhere, the exit scan never finds a zero sample
and the source loop never exits. -/
theorem exitScanX_of_ne (field : V3 → V3) (hfield : ∀ p, field p ≠ zeroV)
    (pos : V3) (d : ℝ) : exitScanX field pos d = none := by
  unfold exitScanX
  rw [dif_neg]
  push_neg
  intro n
  exact hfield _

/-- For a nowhere-vanishing field and a unit x direction, the outer bisection
loop never takes the sentinel return: starting inside the domain with a
positive step it either exhausts its fuel or completes all halving rounds,
since every inner scan returns its start position, which stays inside the
domain bound. -/
theorem outerX_no_sentinel (field : V3 → V3) (hfield : ∀ p, field p ≠ zeroV)
    (minStep : ℝ) : ∀ fuel : ℕ, ∀ pos : V3, ∀ dr : ℝ, 0 < dr →
    -40000 ≤ pos.1 - 2 * dr → pos.1 ≤ 40000 →
    outerX field 1 minStep fuel pos dr = none ∨
      ∃ p d, outerX field 1 minStep fuel pos dr = some (p, d, false) := by
  intro fuel
  induction fuel with
  | zero =>
    intro pos dr _ _ _
    left
    rfl
  | succ k ih =>
    intro pos dr hdr hlow hhigh
    unfold outerX
    by_cases hms : minStep < dr
    · rw [if_pos hms, innerZeroScanX_of_ne field hfield pos (1 * dr)]
      rw [Option.some_bind]
      have hnot : ¬ (pos.1 < -40000 ∨ 40000 < pos.1) := by
        push_neg
        constructor <;> nlinarith
      rw [if_neg hnot]
      exact ih (advX pos (-(1 * dr))) (dr / 2) (by linarith)
        (by simp only [advX]; linarith) (by simp only [advX]; linarith)
    · rw [if_neg hms]
      right
      exact ⟨pos, dr, rfl⟩

/-- Claim C5 is violated by the code: for the field equal to (0,0,1)
everywhere, a ray from the origin along x and a minimum step of one
hundredth, the trace never produces a result, whatever fuel it is given: the
outer bisection does finish its halving rounds, but the exit scan, which
checks no domain bound, never observes a zero field sample and loops
forever. -/
theorem findOneVolume_unbounded_field_diverges :
    ∀ fuel : ℕ, FindOneVolumeX (fun _ => ((0 : ℝ), (0 : ℝ), (1 : ℝ))) zeroV
      ((1 : ℝ), (0 : ℝ), (0 : ℝ)) (1 / 100) fuel = none := by
  intro fuel
  have hfield : ∀ p : V3, (fun _ : V3 => ((0 : ℝ), (0 : ℝ), (1 : ℝ))) p ≠ zeroV := by
    intro p h
    rw [Prod.ext_iff, Prod.ext_iff] at h
    norm_num [zeroV] at h
  unfold FindOneVolumeX
  have hstart := outerX_no_sentinel _ hfield (1 / 100) fuel
    (advX zeroV (((1 : ℝ), (0 : ℝ), (0 : ℝ)).1 * (1 / 100) / 2)) 5
    (by norm_num) (by norm_num [advX, zeroV]) (by norm_num [advX, zeroV])
  rcases hstart with h | ⟨p, d, h⟩
  · rw [h]
    rfl
  · rw [h, Option.some_bind]
    rw [if_neg (by norm_num)]
    rw [exitScanX_of_ne _ hfield]
    rfl

/-- When the first inner scan already leaves the domain, the outer loop
returns the out-of-domain position together with the sentinel flag. -/
theorem outerX_sentinel_of_inner_out (field : V3 → V3) (dir0 minStep : ℝ)
    (fuel : ℕ) (pos : V3) (dr : ℝ) (hms : minStep < dr) (p : V3)
    (hinner : innerZeroScanX field pos (dir0 * dr) = some p)
    (hout : p.1 < -40000 ∨ 40000 < p.1) :
    outerX field dir0 minStep (fuel + 1) pos dr = some (p, dr, true) := by
  unfold outerX
  rw [if_pos hms, hinner, Option.some_bind, if_pos hout]

/-- A position returned by the inner zero-field scan fails the loop guard:
the field there is nonzero or the position left the domain. -/
theorem innerZeroScanX_spec (field : V3 → V3) (pos : V3) (d : ℝ) (q : V3)
    (h : innerZeroScanX field pos d = some q) :
    ¬ (field q = zeroV ∧ -40000 ≤ q.1 ∧ q.1 ≤ 40000) := by
  unfold innerZeroScanX at h
  by_cases hex : ∃ n : ℕ, ¬ (field (advX pos ((n : ℝ) * d)) = zeroV ∧
      -40000 ≤ (advX pos ((n : ℝ) * d)).1 ∧ (advX pos ((n : ℝ) * d)).1 ≤ 40000)
  · rw [dif_pos hex] at h
    rw [← Option.some.inj h]
    exact Nat.find_spec hex
  · rw [dif_neg hex] at h
    exact absurd h (by simp)

/-- A position returned by the exit scan carries a zero field sample: the
loop stops exactly where the field returns to zero. -/
theorem exitScanX_zero_at (field : V3 → V3) (pos : V3) (d : ℝ) (r : V3)
    (h : exitScanX field pos d = some r) : field r = zeroV := by
  unfold exitScanX at h
  by_cases hex : ∃ n : ℕ, field (advX pos ((n : ℝ) * d)) = zeroV
  · rw [dif_pos hex] at h
    rw [← Option.some.inj h]
    exact Nat.find_spec hex
  · rw [dif_neg hex] at h
    exact absurd h (by simp)

/-- When the outer bisection returns with the sentinel flag, the returned
position lies outside the domain bound. -/
theorem outerX_sentinel_spec (field : V3 → V3) (dir0 minStep : ℝ) :
    ∀ fuel : ℕ, ∀ pos : V3, ∀ dr : ℝ, ∀ p : V3, ∀ d : ℝ,
    outerX field dir0 minStep fuel pos dr = some (p, d, true) →
    p.1 < -40000 ∨ 40000 < p.1 := by
  intro fuel
  induction fuel with
  | zero =>
    intro pos dr p d h
    exact absurd h (by simp [outerX])
  | succ k ih =>
    intro pos dr p d h
    unfold outerX at h
    by_cases hms : minStep < dr
    · rw [if_pos hms] at h
      cases hq : innerZeroScanX field pos (dir0 * dr) with
      | none =>
        rw [hq, Option.none_bind] at h
        exact absurd h (by simp)
      | some q =>
        rw [hq, Option.some_bind] at h
        by_cases hout : q.1 < -40000 ∨ 40000 < q.1
        · rw [if_pos hout] at h
          have hq' : q = p := congrArg Prod.fst (Option.some.inj h)
          rw [← hq']
          exact hout
        · rw [if_neg hout] at h
          exact ih _ _ p d h
    · rw [if_neg hms] at h
      exact absurd (congrArg (fun x => x.2.2) (Option.some.inj h)) (by simp)

/-- When the outer bisection returns without the sentinel flag, the final
step is positive, and either the loop never ran a round because the step
already started at or below the minimum, or the entry point it hands to the
exit scan, two final steps ahead of the returned position, is exactly the
nonzero-field sample on which the last inner scan stopped. -/
theorem outerX_valid_spec (field : V3 → V3) (dir0 minStep : ℝ) :
    ∀ fuel : ℕ, ∀ pos : V3, ∀ dr : ℝ, ∀ p : V3, ∀ d : ℝ, 0 < dr →
    outerX field dir0 minStep fuel pos dr = some (p, d, false) →
    0 < d ∧ (p = pos ∧ d = dr ∧ ¬ (minStep < dr) ∨
      field (advX p (dir0 * d * 2)) ≠ zeroV) := by
  intro fuel
  induction fuel with
  | zero =>
    intro pos dr p d hdr h
    exact absurd h (by simp [outerX])
  | succ k ih =>
    intro pos dr p d hdr h
    unfold outerX at h
    by_cases hms : minStep < dr
    · rw [if_pos hms] at h
      cases hq : innerZeroScanX field pos (dir0 * dr) with
      | none =>
        rw [hq, Option.none_bind] at h
        exact absurd h (by simp)
      | some q =>
        rw [hq, Option.some_bind] at h
        by_cases hout : q.1 < -40000 ∨ 40000 < q.1
        · rw [if_pos hout] at h
          exact absurd (congrArg (fun x => x.2.2) (Option.some.inj h)) (by simp)
        · rw [if_neg hout] at h
          have hrec := ih (advX q (-(dir0 * dr))) (dr / 2) p d (by linarith) h
          refine ⟨hrec.1, Or.inr ?_⟩
          rcases hrec.2 with ⟨hp, hd, _⟩ | hfield
          · push_neg at hout
            have hfq : field q ≠ zeroV := by
              intro hz
              exact innerZeroScanX_spec field pos (dir0 * dr) q hq ⟨hz, hout.1, hout.2⟩
            have hcol : advX p (dir0 * d * 2) = q := by
              rw [hp, hd]
              simp only [advX]
              rw [Prod.ext_iff]
              exact ⟨by ring, rfl⟩
            rw [hcol]
            exact hfq
          · exact hfield
    · rw [if_neg hms] at h
      have hinj := Option.some.inj h
      have hp : pos = p := congrArg Prod.fst hinj
      have hd : dr = d := congrArg (fun x => x.2.1) hinj
      exact ⟨hd ▸ hdr, Or.inl ⟨hp.symm, hd.symm, hms⟩⟩

/-- Every pair the trace returns has distinct components, provided the
minimum step is below the initial coarse step of 5: a sentinel pair holds an
out-of-domain entry next to the in-domain zero vector, and a valid pair
holds an entry with a nonzero field sample next to an exit with a zero field
sample. -/
theorem findOneVolume_pair_distinct (field : V3 → V3) (pos dir : V3)
    (minStep : ℝ) (fuel : ℕ) (l : List V3) (hms : minStep < 5)
    (h : FindOneVolumeX field pos dir minStep fuel = some l) :
    ∃ a b : V3, l = [a, b] ∧ a ≠ b := by
  unfold FindOneVolumeX at h
  cases ho : outerX field dir.1 minStep fuel (advX pos (dir.1 * minStep / 2)) 5 with
  | none =>
    rw [ho, Option.none_bind] at h
    exact absurd h (by simp)
  | some r =>
    rw [ho, Option.some_bind] at h
    obtain ⟨q, d, flag⟩ := r
    cases flag with
    | true =>
      rw [if_pos rfl] at h
      refine ⟨q, zeroV, (Option.some.inj h).symm, ?_⟩
      intro heq
      rcases outerX_sentinel_spec field dir.1 minStep fuel _ 5 q d ho with hlt | hgt
      · rw [heq] at hlt
        norm_num [zeroV] at hlt
      · rw [heq] at hgt
        norm_num [zeroV] at hgt
    | false =>
      rw [if_neg (by simp)] at h
      cases he : exitScanX field (advX q (dir.1 * d * 2)) (dir.1 * d) with
      | none =>
        rw [he, Option.none_bind] at h
        exact absurd h (by simp)
      | some r2 =>
        rw [he, Option.some_bind] at h
        have hv := outerX_valid_spec field dir.1 minStep fuel
          (advX pos (dir.1 * minStep / 2)) 5 q d (by norm_num) ho
        have hfieldIn : field (advX q (dir.1 * d * 2)) ≠ zeroV := by
          rcases hv.2 with ⟨_, _, hnm⟩ | hf
          · exact absurd hms hnm
          · exact hf
        refine ⟨advX q (dir.1 * d * 2), r2, (Option.some.inj h).symm, ?_⟩
        intro heq
        exact hfieldIn (heq ▸ exitScanX_zero_at field _ _ r2 he)

/-- Claim C8 is violated by the code: tracing an everywhere-zero field from
the origin along x, FindOneVolume returns a two-point answer whose first
entry is the out-of-domain position it reached and whose second entry is the
zero vector, an in-band sentinel standing where the exit coordinate would be,
instead of an explicit absent or empty result. -/
theorem findOneVolume_zero_sentinel_counterexample :
    FindOneVolumeX (fun _ => zeroV) zeroV ((1 : ℝ), (0 : ℝ), (0 : ℝ)) (1 / 100) 2 =
      some [((40000 + 1 / 200 : ℝ), (0 : ℝ), (0 : ℝ)), zeroV] := by
  have hguard : ∀ n : ℕ, n < 8000 →
      ((fun _ : V3 => zeroV) (advX (advX zeroV ((1 : ℝ) * (1 / 100) / 2))
          ((n : ℝ) * (1 * 5))) = zeroV ∧
        -40000 ≤ (advX (advX zeroV ((1 : ℝ) * (1 / 100) / 2)) ((n : ℝ) * (1 * 5))).1 ∧
        (advX (advX zeroV ((1 : ℝ) * (1 / 100) / 2)) ((n : ℝ) * (1 * 5))).1 ≤ 40000) := by
    intro n hn
    have hn' : (n : ℝ) ≤ 7999 := by
      exact_mod_cast Nat.lt_succ_iff.mp hn
    refine ⟨rfl, ?_, ?_⟩
    · simp only [advX, zeroV]
      have hn0 : (0 : ℝ) ≤ (n : ℝ) := Nat.cast_nonneg n
      nlinarith
    · simp only [advX, zeroV]
      nlinarith
  have hnot : ¬ ((fun _ : V3 => zeroV) (advX (advX zeroV ((1 : ℝ) * (1 / 100) / 2))
      (((8000 : ℕ) : ℝ) * (1 * 5))) = zeroV ∧
      -40000 ≤ (advX (advX zeroV ((1 : ℝ) * (1 / 100) / 2)) (((8000 : ℕ) : ℝ) * (1 * 5))).1 ∧
      (advX (advX zeroV ((1 : ℝ) * (1 / 100) / 2)) (((8000 : ℕ) : ℝ) * (1 * 5))).1 ≤ 40000) := by
    intro hc
    have := hc.2.2
    norm_num [advX, zeroV] at this
  have hex : ∃ n : ℕ, ¬ ((fun _ : V3 => zeroV) (advX (advX zeroV ((1 : ℝ) * (1 / 100) / 2))
      ((n : ℝ) * (1 * 5))) = zeroV ∧
      -40000 ≤ (advX (advX zeroV ((1 : ℝ) * (1 / 100) / 2)) ((n : ℝ) * (1 * 5))).1 ∧
      (advX (advX zeroV ((1 : ℝ) * (1 / 100) / 2)) ((n : ℝ) * (1 * 5))).1 ≤ 40000) :=
    ⟨8000, hnot⟩
  have hinner : innerZeroScanX (fun _ => zeroV) (advX zeroV ((1 : ℝ) * (1 / 100) / 2))
      (1 * 5) = some ((40000 + 1 / 200 : ℝ), (0 : ℝ), (0 : ℝ)) := by
    unfold innerZeroScanX
    rw [dif_pos hex]
    have hfind : Nat.find hex = 8000 := by
      rw [Nat.find_eq_iff]
      exact ⟨hnot, fun k hk hne => hne (hguard k hk)⟩
    rw [hfind]
    congr 1
    rw [Prod.ext_iff, Prod.ext_iff]
    norm_num [advX, zeroV]
  rw [show (2 : ℕ) = 1 + 1 from rfl]
  unfold FindOneVolumeX
  rw [outerX_sentinel_of_inner_out (fun _ => zeroV) 1 (1 / 100) 1
    (advX zeroV ((1 : ℝ) * (1 / 100) / 2)) 5 (by norm_num)
    ((40000 + 1 / 200 : ℝ), (0 : ℝ), (0 : ℝ)) hinner (Or.inr (by norm_num))]
  rfl

/-- Claim C8 (amended): the trace does use an in-band sentinel: from any
start inside the domain, scanning an everywhere-zero field returns a
two-point list whose first entry lies beyond the domain bound and whose
second entry is the zero vector; callers recognise the missing segment by
the out-of-domain first coordinate.  The distinctness invariant of the
original claim survives: whenever the minimum step is below the initial
coarse step, every returned pair, sentinel or valid, has entry point
distinct from exit point, because a valid entry carries a nonzero field
sample while the returned exit carries a zero field sample, and a sentinel
entry lies outside the domain while the zero vector lies inside. -/
theorem findOneVolume_zero_sentinel_amended :
    (∀ x0 : ℝ, -40000 ≤ x0 → x0 ≤ 40000 →
      ∃ p : V3, FindOneVolumeX (fun _ => zeroV) (x0, (0 : ℝ), (0 : ℝ))
        ((1 : ℝ), (0 : ℝ), (0 : ℝ)) (1 / 100) 2 = some [p, zeroV] ∧ 40000 < p.1) ∧
    (∀ (field : V3 → V3) (pos dir : V3) (minStep : ℝ) (fuel : ℕ) (l : List V3),
      minStep < 5 → FindOneVolumeX field pos dir minStep fuel = some l →
      ∃ a b : V3, l = [a, b] ∧ a ≠ b) := by
  refine ⟨fun x0 h1 h2 => ?_, fun field pos dir minStep fuel l hms h =>
    findOneVolume_pair_distinct field pos dir minStep fuel l hms h⟩
  have hex : ∃ n : ℕ, ¬ ((fun _ : V3 => zeroV) (advX (advX (x0, (0 : ℝ), (0 : ℝ))
      ((1 : ℝ) * (1 / 100) / 2)) ((n : ℝ) * (1 * 5))) = zeroV ∧
      -40000 ≤ (advX (advX (x0, (0 : ℝ), (0 : ℝ)) ((1 : ℝ) * (1 / 100) / 2))
        ((n : ℝ) * (1 * 5))).1 ∧
      (advX (advX (x0, (0 : ℝ), (0 : ℝ)) ((1 : ℝ) * (1 / 100) / 2))
        ((n : ℝ) * (1 * 5))).1 ≤ 40000) := by
    obtain ⟨n, hn⟩ := exists_nat_gt ((40000 - x0) / 5)
    refine ⟨n, fun hc => ?_⟩
    have hb := hc.2.2
    simp only [advX] at hb
    nlinarith
  set pf := advX (advX (x0, (0 : ℝ), (0 : ℝ)) ((1 : ℝ) * (1 / 100) / 2))
    (((Nat.find hex : ℕ) : ℝ) * (1 * 5)) with hpf
  have hinner : innerZeroScanX (fun _ => zeroV) (advX (x0, (0 : ℝ), (0 : ℝ))
      ((1 : ℝ) * (1 / 100) / 2)) (1 * 5) = some pf := by
    unfold innerZeroScanX
    rw [dif_pos hex]
  have hfound := Nat.find_spec hex
  have hgt : 40000 < pf.1 := by
    rcases not_and.mp hfound rfl with hb
    have hb' := not_and.mp hb
    by_contra hle
    push_neg at hle
    refine hb ⟨?_, hle⟩
    simp only [hpf, advX]
    have : (0 : ℝ) ≤ ((Nat.find hex : ℕ) : ℝ) * (1 * 5) := by positivity
    linarith
  refine ⟨pf, ?_, hgt⟩
  rw [show (2 : ℕ) = 1 + 1 from rfl]
  unfold FindOneVolumeX
  rw [outerX_sentinel_of_inner_out (fun _ => zeroV) 1 (1 / 100) 1
    (advX (x0, (0 : ℝ), (0 : ℝ)) ((1 : ℝ) * (1 / 100) / 2)) 5 (by norm_num)
    pf hinner (Or.inr hgt)]
  rfl

/-- Witness for the amended claim C8 at the concrete start 0 on the x axis
and the concrete trace it produces: the sentinel pair exists, and the same
concrete trace result is a two-point list with distinct entries. -/
theorem findOneVolume_zero_sentinel_amended_witness :
    (-40000 : ℝ) ≤ 0 ∧ (0 : ℝ) ≤ 40000 ∧ (1 / 100 : ℝ) < 5 ∧
    (∃ p : V3, FindOneVolumeX (fun _ => zeroV) ((0 : ℝ), (0 : ℝ), (0 : ℝ))
        ((1 : ℝ), (0 : ℝ), (0 : ℝ)) (1 / 100) 2 = some [p, zeroV] ∧ 40000 < p.1) ∧
    (∃ l : List V3, FindOneVolumeX (fun _ => zeroV) ((0 : ℝ), (0 : ℝ), (0 : ℝ))
        ((1 : ℝ), (0 : ℝ), (0 : ℝ)) (1 / 100) 2 = some l ∧
      ∃ a b : V3, l = [a, b] ∧ a ≠ b) := by
  refine ⟨by norm_num, by norm_num, by norm_num, ?_, ?_⟩
  · exact findOneVolume_zero_sentinel_amended.1 0 (by norm_num) (by norm_num)
  · obtain ⟨p, hp, hgt⟩ :=
      findOneVolume_zero_sentinel_amended.1 0 (by norm_num) (by norm_num)
    obtain ⟨a, b, hl, hab⟩ := findOneVolume_zero_sentinel_amended.2
      (fun _ => zeroV) ((0 : ℝ), (0 : ℝ), (0 : ℝ)) ((1 : ℝ), (0 : ℝ), (0 : ℝ))
      (1 / 100) 2 [p, zeroV] (by norm_num) hp
    exact ⟨[p, zeroV], hp, a, b, hl, hab⟩

/-- A zero coherence length makes the Mode B probability vanish, whatever
profile it is given: the integral is scaled by the zero length. -/
theorem vec_zero_length (gas : Option BufferGas) (Ea : ℝ) (B : List ℝ) (ma : ℝ) :
    GammaTransmissionProbabilityVec gas Ea B ma 0 = 0 := by
  unfold GammaTransmissionProbabilityVec
  norm_num

/-- A list built from a pointwise-constant function is a replicated list. -/
theorem ofFn_eq_replicate {n : ℕ} (f : Fin n → ℝ) (c : ℝ) (h : ∀ i, f i = c) :
    List.ofFn f = List.replicate n c := by
  have hf : f = fun _ => c := funext h
  rw [hf]
  exact List.ofFn_const n c

/-- GetFieldVector of the constant unit z field along a unit x direction is a
constant unit profile of the default ten thousand samples. -/
theorem getFieldVector_const_unit :
    GetFieldVector (fun _ => ((0 : ℝ), (0 : ℝ), (1 : ℝ))) ((1 : ℝ), (0 : ℝ), (0 : ℝ))
      ((0 : ℝ), (0 : ℝ), (0 : ℝ)) ((1000 : ℝ), (0 : ℝ), (0 : ℝ)) 0 =
      List.replicate 10000 1 := by
  unfold GetFieldVector
  apply ofFn_eq_replicate
  intro i
  exact perpMag_zAxis 1 (by norm_num)

/-- Claim C6 is violated by the code: for a single x-aligned segment from the
origin to (1000,0,0) in a constant unit transverse field, the per-segment
assignment that survives is the else branch of the second if, which uses the
y difference zero as the coherence length, so the reported probability is
zero; the per-segment probability at the traversed length 1000 that the
claim prescribes is strictly positive. -/
theorem processEvent_x_aligned_zero_length_bug :
    (∀ Ea ma : ℝ, processProbability none Ea ma (fun _ => ((0 : ℝ), (0 : ℝ), (1 : ℝ)))
        ((1 : ℝ), (0 : ℝ), (0 : ℝ))
        [(((0 : ℝ), (0 : ℝ), (0 : ℝ)), ((1000 : ℝ), (0 : ℝ), (0 : ℝ)))] = 0) ∧
    0 < GammaTransmissionProbabilityVec none 1
        (GetFieldVector (fun _ => ((0 : ℝ), (0 : ℝ), (1 : ℝ))) ((1 : ℝ), (0 : ℝ), (0 : ℝ))
          ((0 : ℝ), (0 : ℝ), (0 : ℝ)) ((1000 : ℝ), (0 : ℝ), (0 : ℝ)) 0) 0 1000 := by
  constructor
  · intro Ea ma
    unfold processProbability
    norm_num [segmentProbability, vec_zero_length]
  · rw [getFieldVector_const_unit]
    rw [vec_replicate_zero_mass 1 1 1000 10000 (by norm_num)]
    norm_num [lightSpeed, naturalElectron]

end Axionlib
